import Mathlib

/-!
Shallow embedding of `logger/logger.go` (package `logger`): a process-wide,
level-based logging facility.  Pure helpers (`format`, `formatf`) become Lean
functions over an inductive classification of the dynamic `Context` value;
the mutable package state (the four level bindings and `previousIo`) becomes
an explicit state record with a step function producing a list of observable
effects (writes to sinks, color escapes to stdout, sink closes).
-/

namespace LoggerGo

/-- A Go `interface{}` argument value as the logger uses it: an integer or a
string.  `fmt`'s default `%v` rendering of each is its decimal / literal text. -/
inductive GoVal where
  | intV (n : Int)
  | strV (s : String)
deriving DecidableEq, Repr

/-- Default (`%v`) rendering of a value, as `fmt` does it. -/
def renderV : GoVal → String
  | GoVal.intV n => toString n
  | GoVal.strV s => s

/-- Model of `fmt.Sprintf` restricted to the `%v` verb, which is the only verb the
logger's own format strings use.  A `%v` with no argument left renders as
Go's `%!v(MISSING)`. -/
def sprintfAux : List Char → List GoVal → String
  | [], _ => ""
  | '%' :: 'v' :: rest, x :: xs => renderV x ++ sprintfAux rest xs
  | '%' :: 'v' :: rest, [] => "%!v(MISSING)" ++ sprintfAux rest []
  | c :: rest, xs => String.singleton c ++ sprintfAux rest xs

def sprintf (f : String) (a : List GoVal) : String :=
  sprintfAux f.toList a

/-- Model of `fmt.Sprintln`: renders each operand with `%v`, always separated by a
single space, with a newline appended. -/
def sprintln (a : List GoVal) : String :=
  String.intercalate " " (a.map renderV) ++ "\n"

/-- The dynamic classification of the `ctx Context` argument that
`loggerPlus.format` / `formatf` perform: `nil`, a value implementing
`cidContext` (its `Cid()` result attached), or any other non-nil value. -/
inductive Context where
  | nil
  | cid (c : Int)
  | other
deriving DecidableEq, Repr

/-- Embeds `loggerPlus.format` (logger.go:51-58): three-way rule producing the
argument list actually printed.  `pid` stands for `os.Getpid()`. -/
def format (pid : Int) (ctx : Context) (a : List GoVal) : List GoVal :=
  match ctx with
  | Context.nil => GoVal.strV (sprintf "[%v] " [GoVal.intV pid]) :: a
  | Context.cid c => GoVal.strV (sprintf "[%v][%v] " [GoVal.intV pid, GoVal.intV c]) :: a
  | Context.other => a

/-- Embeds `loggerPlus.formatf` (logger.go:60-67): three-way rule producing the
format string and argument list actually printed. -/
def formatf (pid : Int) (ctx : Context) (f : String) (a : List GoVal) :
    String × List GoVal :=
  match ctx with
  | Context.nil => ("[%v] " ++ f, GoVal.intV pid :: a)
  | Context.cid c => ("[%v][%v] " ++ f, GoVal.intV pid :: GoVal.intV c :: a)
  | Context.other => (f, a)

/-- The loop of the standard library `log` package's `itoa(buf, i, wid)`,
which runs while `i >= 10 || wid > 1` emitting low digits, then emits the
final digit.  `fuel` is a structural bound on the iteration count so the
definition reduces in the kernel; the loop sum `i + wid` strictly decreases,
so any `fuel ≥ i + wid` reproduces the Go loop exactly (the `fuel = 0`
fallback is then only reached at `i = 0`, `wid = 0`, where the loop also
stops). -/
def itoaFuel : Nat → Nat → Nat → List Char
  | 0, i, _ => [Char.ofNat (48 + i)]
  | fuel + 1, i, wid =>
    if 10 ≤ i ∨ 1 < wid then
      itoaFuel fuel (i / 10) (wid - 1) ++ [Char.ofNat (48 + i % 10)]
    else [Char.ofNat (48 + i)]

/-- The `log` package's `itoa`: decimal digits of `i`, zero-padded on the left to width
`wid` (more digits if `i` needs them). -/
def itoa (i wid : Nat) : List Char := itoaFuel (i + wid) i wid

/-- The wall-clock fields `log.Logger.formatHeader` renders with flags
`Ldate|Ltime|Lmicroseconds`. -/
structure Timestamp where
  year : Nat
  month : Nat
  day : Nat
  hour : Nat
  minute : Nat
  sec : Nat
  micro : Nat
deriving DecidableEq, Repr

/-- Field bounds a real clock reading always satisfies; under them every
field renders at exactly its fixed width. -/
def Timestamp.valid (t : Timestamp) : Prop :=
  t.year < 10000 ∧ t.month < 100 ∧ t.day < 100 ∧ t.hour < 100 ∧
    t.minute < 100 ∧ t.sec < 100 ∧ t.micro < 1000000

instance (t : Timestamp) : Decidable t.valid := by
  unfold Timestamp.valid
  infer_instance

/-- The date/time part of the header: `YYYY/MM/DD HH:MM:SS.micro ` with a
trailing space, exactly as `formatHeader` emits it for these flags. -/
def headerChars (t : Timestamp) : List Char :=
  itoa t.year 4 ++ ['/'] ++ itoa t.month 2 ++ ['/'] ++ itoa t.day 2 ++ [' '] ++
    itoa t.hour 2 ++ [':'] ++ itoa t.minute 2 ++ [':'] ++ itoa t.sec 2 ++ ['.'] ++
    itoa t.micro 6 ++ [' ']

-- The level labels of logger.go:26-29.
def logInfoLabel : String := "[info] "
def logTraceLabel : String := "[trace] "
def logWarnLabel : String := "[warn] "
def logErrorLabel : String := "[error] "

/-- The four severity levels; each global (`Info`, `Trace`, `Warn`, `Error`)
is one `loggerPlus`, distinguished here by its level. -/
inductive Level where
  | info | trace | warn | error
deriving DecidableEq, Repr

def label : Level → String
  | Level.info => logInfoLabel
  | Level.trace => logTraceLabel
  | Level.warn => logWarnLabel
  | Level.error => logErrorLabel

/-- Like `log.Logger.Output`, append a newline when the message lacks one. -/
def ensureNl (s : String) : String :=
  if s.data.getLast? = some '\n' then s else s ++ "\n"

/-- The full text one `log.Logger.Output` call writes: with no `Lmsgprefix`
flag the configured prefix string comes FIRST, then the date/time header,
then the message. -/
def outputLine (pre : String) (t : Timestamp) (s : String) : String :=
  pre ++ (headerChars t).asString ++ ensureNl s

/-- Modelled from the spec: the `Println(ctx, a...)` method that the `Logger`
interface requires of `loggerPlus` is missing from the source file (only its
helpers `format` and `doPrintln` are present).  Spec §4.2 `writeLine`:
resolve the tag (§4.1), concatenate with the caller's arguments, pass to the
sink's line-writing primitive (which appends a trailing line terminator),
prefixed with the severity label and the timestamp.  Hence the text is
`Sprintln` of `format`'s result, decorated by `Output`'s header. -/
def printlnLine (pid : Int) (t : Timestamp) (lv : Level) (ctx : Context)
    (a : List GoVal) : String :=
  outputLine (label lv) t (sprintln (format pid ctx a))

/-- Modelled from the spec: the missing `Printf(ctx, format, a...)` method,
per spec §4.2 `writeFormatted`: resolve the tag as a format/argument pair
(§4.1), then delegate to the sink's formatted-write primitive with the same
label/timestamp decoration. -/
def printfLine (pid : Int) (t : Timestamp) (lv : Level) (ctx : Context)
    (f : String) (a : List GoVal) : String :=
  outputLine (label lv) t (sprintf (formatf pid ctx f a).1 (formatf pid ctx f a).2)

/-- A destination: `os.Stdout`, `ioutil.Discard`, or a user writer (by id). -/
inductive SinkRef where
  | stdout | discard | custom (id : Nat)
deriving DecidableEq, Repr

/-- A user-supplied `io.Writer`: `closable` says whether it also implements
`io.Closer`; `closeErr` is what its `Close()` returns (`none` = nil error). -/
structure Writer where
  id : Nat
  closable : Bool
  closeErr : Option String
deriving DecidableEq, Repr

/-- The package-level mutable state: the destination inside each of the four
global `loggerPlus` values, and `previousIo` (logger.go:192). -/
structure LoggerState where
  infoDest : SinkRef
  traceDest : SinkRef
  warnDest : SinkRef
  errorDest : SinkRef
  previousIo : Option Writer
deriving DecidableEq, Repr

/-- Embeds `init()` (logger.go:170-175): Info to `ioutil.Discard`, the rest to
`os.Stdout`; `previousIo` starts nil. -/
def initState : LoggerState :=
  ⟨SinkRef.discard, SinkRef.stdout, SinkRef.stdout, SinkRef.stdout, none⟩

def destOf (st : LoggerState) : Level → SinkRef
  | Level.info => st.infoDest
  | Level.trace => st.traceDest
  | Level.warn => st.warnDest
  | Level.error => st.errorDest

-- logger.go:69-71
def colorYellow : String := "\x1b[33m"
def colorRed : String := "\x1b[31m"
def colorBlack : String := "\x1b[0m"

/-- An observable effect: a formatted line reaching a level's destination, a
raw write to `os.Stdout` (the color escapes), or a `Close()` call on a
tracked writer. -/
inductive Event where
  | wrote (dest : SinkRef) (line : String)
  | stdoutWrite (s : String)
  | closedSink (id : Nat)
deriving DecidableEq, Repr

/-- Embeds `loggerPlus.doPrintln` (logger.go:73-89): when `previousIo == nil`, an
Error-level write is bracketed by red/reset escapes on `os.Stdout` and a
Warn-level write by yellow/reset; otherwise the line alone is written.  The
`v == Error` / `v == Warn` pointer tests identify the receiver's level. -/
def doPrintlnEv (st : LoggerState) (lv : Level) (line : String) : List Event :=
  if st.previousIo = none then
    if lv = Level.error then
      [Event.stdoutWrite colorRed, Event.wrote (destOf st lv) line,
        Event.stdoutWrite colorBlack]
    else if lv = Level.warn then
      [Event.stdoutWrite colorYellow, Event.wrote (destOf st lv) line,
        Event.stdoutWrite colorBlack]
    else [Event.wrote (destOf st lv) line]
  else [Event.wrote (destOf st lv) line]

/-- Embeds `loggerPlus.doPrintf` (logger.go:91-107): same branching as `doPrintln`. -/
def doPrintfEv (st : LoggerState) (lv : Level) (line : String) : List Event :=
  if st.previousIo = none then
    if lv = Level.error then
      [Event.stdoutWrite colorRed, Event.wrote (destOf st lv) line,
        Event.stdoutWrite colorBlack]
    else if lv = Level.warn then
      [Event.stdoutWrite colorYellow, Event.wrote (destOf st lv) line,
        Event.stdoutWrite colorBlack]
    else [Event.wrote (destOf st lv) line]
  else [Event.wrote (destOf st lv) line]

/-- Embeds `Switch(w)` (logger.go:179-189): Info to `ioutil.Discard`, Trace/Warn/
Error to `w`; if `w` implements `io.Closer` it becomes `previousIo`,
otherwise `previousIo` is left as it was.  Nothing is closed. -/
def doSwitch (st : LoggerState) (w : Writer) : LoggerState :=
  { infoDest := SinkRef.discard
    traceDest := SinkRef.custom w.id
    warnDest := SinkRef.custom w.id
    errorDest := SinkRef.custom w.id
    previousIo := if w.closable then some w else st.previousIo }

/-- Embeds `Close()` (logger.go:196-208): all four levels to `ioutil.Discard`; if
`previousIo != nil` its `Close()` is called, the slot cleared, and that error
returned (in both branches the slot ends nil). -/
def doClose (st : LoggerState) : LoggerState × List Event × Option String :=
  let st2 : LoggerState :=
    ⟨SinkRef.discard, SinkRef.discard, SinkRef.discard, SinkRef.discard, none⟩
  match st.previousIo with
  | some w => (st2, [Event.closedSink w.id], w.closeErr)
  | none => (st2, [], none)

/-- One public operation on the package. -/
inductive Op where
  | println (lv : Level) (ctx : Context) (a : List GoVal)
  | printf (lv : Level) (ctx : Context) (f : String) (a : List GoVal)
  | switchW (w : Writer)
  | close
deriving DecidableEq, Repr

/-- One operation's effect: the next state, the events it emits, and the
error it returns (only `Close` returns one). -/
def step (pid : Int) (t : Timestamp) (st : LoggerState) :
    Op → LoggerState × List Event × Option String
  | Op.println lv ctx a => (st, doPrintlnEv st lv (printlnLine pid t lv ctx a), none)
  | Op.printf lv ctx f a => (st, doPrintfEv st lv (printfLine pid t lv ctx f a), none)
  | Op.switchW w => (doSwitch st w, [], none)
  | Op.close => doClose st

/-- Run a sequence of operations, collecting all events in order. -/
def run (pid : Int) (t : Timestamp) : LoggerState → List Op → LoggerState × List Event
  | st, [] => (st, [])
  | st, op :: ops =>
    let r := step pid t st op
    let rest := run pid t r.1 ops
    (rest.1, r.2.1 ++ rest.2)

/-! ### Line-shape matching

A tiny anchored matcher for the `\d{n}` / literal patterns the spec's
regexes use, so line-format claims become decidable statements. -/

/-- Consume an exact literal; `none` on mismatch. -/
def takeLit : List Char → List Char → Option (List Char)
  | [], cs => some cs
  | l :: ls, c :: cs => if c = l then takeLit ls cs else none
  | _ :: _, [] => none

/-- Consume exactly `n` decimal digits; `none` otherwise. -/
def takeDigits : Nat → List Char → Option (List Char)
  | 0, cs => some cs
  | n + 1, c :: cs => if c.isDigit then takeDigits n cs else none
  | _ + 1, [] => none

/-- A pattern token: a literal, or exactly `n` digits. -/
inductive Tok where
  | lit (l : List Char)
  | dig (n : Nat)

/-- Anchored match of a token sequence against a whole character list. -/
def chk : List Tok → List Char → Bool
  | [], cs => cs.isEmpty
  | Tok.lit l :: ts, cs =>
    match takeLit l cs with
    | some r => chk ts r
    | none => false
  | Tok.dig n :: ts, cs =>
    match takeDigits n cs with
    | some r => chk ts r
    | none => false

/-- Tokens for `\d{4}/\d{2}/\d{2} \d{2}:\d{2}:\d{2}\.\d{6}`, the timestamp part of the
spec's line regex. -/
def headerToks : List Tok :=
  [Tok.dig 4, Tok.lit ['/'], Tok.dig 2, Tok.lit ['/'], Tok.dig 2, Tok.lit [' '],
    Tok.dig 2, Tok.lit [':'], Tok.dig 2, Tok.lit [':'], Tok.dig 2, Tok.lit ['.'],
    Tok.dig 6]

/-- The spec's claimed shape for the C2 scenario, timestamp first:
`^\d{4}/\d{2}/\d{2} \d{2}:\d{2}:\d{2}\.\d{6} \[trace\] \[1234\] hello$`
plus the trailing newline. -/
def matchesC2Claim (s : String) : Bool :=
  chk (headerToks ++ [Tok.lit " [trace] [1234] hello\n".toList]) s.toList

/-- The shape the code actually produces for that scenario: severity label
first (the `log.Logger` prefix precedes the header without `Lmsgprefix`),
then the timestamp, then the pid tag, then TWO spaces (the tag string's own
trailing space plus `Sprintln`'s separator) and the message:
`^\[trace\] \d{4}/\d{2}/\d{2} \d{2}:\d{2}:\d{2}\.\d{6} \[1234\]  hello$`
plus the trailing newline. -/
def matchesC2Amended (s : String) : Bool :=
  chk (Tok.lit "[trace] ".toList :: headerToks ++ [Tok.lit " [1234]  hello\n".toList])
    s.toList

theorem takeLit_append (ls cs : List Char) : takeLit ls (ls ++ cs) = some cs := by
  induction ls with
  | nil => rfl
  | cons l ls ih => simp [takeLit, ih]

theorem takeDigits_append (ds cs : List Char) (hd : ∀ c ∈ ds, c.isDigit = true) :
    takeDigits ds.length (ds ++ cs) = some cs := by
  induction ds with
  | nil => rfl
  | cons c ds ih =>
    simp only [List.length_cons, List.cons_append, takeDigits]
    rw [if_pos (hd c (by simp))]
    exact ih fun c hc => hd c (by simp [hc])

theorem chk_lit_append (ls cs : List Char) (ts : List Tok) :
    chk (Tok.lit ls :: ts) (ls ++ cs) = chk ts cs := by
  simp [chk, takeLit_append]

theorem chk_litc (c : Char) (cs : List Char) (ts : List Tok) :
    chk (Tok.lit [c] :: ts) (c :: cs) = chk ts cs := by
  simpa using chk_lit_append [c] cs ts

theorem chk_dig_append (ds cs : List Char) (ts : List Tok) (n : Nat)
    (hd : ∀ c ∈ ds, c.isDigit = true) (hn : ds.length = n) :
    chk (Tok.dig n :: ts) (ds ++ cs) = chk ts cs := by
  subst hn
  simp [chk, takeDigits_append ds cs hd]

theorem charOfDigit_isDigit (d : Nat) (h : d < 10) : (Char.ofNat (48 + d)).isDigit = true := by
  interval_cases d <;> decide

theorem itoaFuel_digit (fuel : Nat) : ∀ i wid, i + wid ≤ fuel →
    ∀ c ∈ itoaFuel fuel i wid, c.isDigit = true := by
  induction fuel with
  | zero =>
    intro i wid h c hc
    simp only [itoaFuel, List.mem_singleton] at hc
    subst hc
    exact charOfDigit_isDigit _ (by omega)
  | succ f ih =>
    intro i wid h c hc
    simp only [itoaFuel] at hc
    by_cases hcond : 10 ≤ i ∨ 1 < wid
    · rw [if_pos hcond] at hc
      rcases List.mem_append.mp hc with h1 | h1
      · rcases hcond with hge | hw
        · exact ih _ _ (by omega) c h1
        · exact ih _ _ (by omega) c h1
      · simp only [List.mem_singleton] at h1
        subst h1
        exact charOfDigit_isDigit _ (Nat.mod_lt _ (by omega))
    · rw [if_neg hcond] at hc
      simp only [List.mem_singleton] at hc
      subst hc
      push_neg at hcond
      exact charOfDigit_isDigit _ (by omega)

theorem itoaFuel_length (fuel : Nat) : ∀ i wid, i + wid ≤ fuel → 1 ≤ wid →
    i < 10 ^ wid → (itoaFuel fuel i wid).length = wid := by
  induction fuel with
  | zero => intro i wid h h1 _; omega
  | succ f ih =>
    intro i wid h h1 hb
    simp only [itoaFuel]
    by_cases hcond : 10 ≤ i ∨ 1 < wid
    · rw [if_pos hcond]
      have hwid2 : 2 ≤ wid := by
        rcases hcond with hge | hw
        · by_contra hlt
          have hw1 : wid = 1 := by omega
          subst hw1
          norm_num at hb
          omega
        · omega
      have hdiv : i / 10 < 10 ^ (wid - 1) := by
        rw [Nat.div_lt_iff_lt_mul (by norm_num)]
        calc i < 10 ^ wid := hb
          _ = 10 ^ (wid - 1) * 10 := by
            rw [← pow_succ]
            congr 1
            omega
      rw [List.length_append, ih (i / 10) (wid - 1) (by omega) (by omega) hdiv]
      simp
      omega
    · rw [if_neg hcond]
      push_neg at hcond
      simp only [List.length_singleton]
      omega

theorem itoa_all_digit (i wid : Nat) : ∀ c ∈ itoa i wid, c.isDigit = true :=
  itoaFuel_digit (i + wid) i wid le_rfl

theorem itoa_length (wid i : Nat) (h1 : 1 ≤ wid) (hb : i < 10 ^ wid) :
    (itoa i wid).length = wid :=
  itoaFuel_length (i + wid) i wid le_rfl h1 hb

/-- Consuming a width-`wid` field of a valid magnitude. -/
theorem chk_itoa (i wid : Nat) (cs : List Char) (ts : List Tok)
    (h1 : 1 ≤ wid) (hb : i < 10 ^ wid) :
    chk (Tok.dig wid :: ts) (itoa i wid ++ cs) = chk ts cs :=
  chk_dig_append _ _ _ _ (itoa_all_digit i wid) (itoa_length wid i h1 hb)

/-- Consuming the rendered header of a valid timestamp; its trailing space
is left for the next token. -/
theorem chk_header (t : Timestamp) (hv : t.valid) (cs : List Char) (ts : List Tok) :
    chk (headerToks ++ ts) (headerChars t ++ cs) = chk ts (' ' :: cs) := by
  obtain ⟨hy, hmo, hd, hh, hmi, hs, hmc⟩ := hv
  simp only [headerToks, headerChars, List.append_assoc, List.cons_append,
    List.nil_append]
  rw [chk_itoa _ _ _ _ (by omega) (by norm_num [hy]),
    chk_litc, chk_itoa _ _ _ _ (by omega) (by norm_num [hmo]),
    chk_litc, chk_itoa _ _ _ _ (by omega) (by norm_num [hd]),
    chk_litc, chk_itoa _ _ _ _ (by omega) (by norm_num [hh]),
    chk_litc, chk_itoa _ _ _ _ (by omega) (by norm_num [hmi]),
    chk_litc, chk_itoa _ _ _ _ (by omega) (by norm_num [hs]),
    chk_litc, chk_itoa _ _ _ _ (by omega) (by norm_num [hmc])]

/-! ### String plumbing -/

theorem strExt (s u : String) (h : s.data = u.data) : s = u := by
  cases s
  cases u
  exact congrArg String.mk h

theorem strData_append (s u : String) : (s ++ u).data = s.data ++ u.data := rfl

theorem strToList_append (s u : String) : (s ++ u).toList = s.toList ++ u.toList := rfl

theorem toList_asString (l : List Char) : (List.asString l).toList = l := rfl

/-- Evaluating `fmt.Sprintf("[%v] ", pid)`. -/
theorem sprintf_pidTag (pid : Int) :
    sprintf "[%v] " [GoVal.intV pid] = "[" ++ toString pid ++ "] " := by
  apply strExt
  have h1 : "[%v] ".toList = ['[', '%', 'v', ']', ' '] := rfl
  have h2 : ("[" : String).data = ['['] := rfl
  have h3 : ("] " : String).data = [']', ' '] := rfl
  simp [sprintf, h1, sprintfAux, renderV, strData_append, h2, h3,
    String.singleton, String.push]

/-- Evaluating `fmt.Sprintf("[%v][%v] ", pid, cid)`. -/
theorem sprintf_pidCidTag (pid c : Int) :
    sprintf "[%v][%v] " [GoVal.intV pid, GoVal.intV c]
      = "[" ++ toString pid ++ "][" ++ toString c ++ "] " := by
  apply strExt
  have h1 : "[%v][%v] ".toList = ['[', '%', 'v', ']', '[', '%', 'v', ']', ' '] := rfl
  have h2 : ("[" : String).data = ['['] := rfl
  have h3 : ("] " : String).data = [']', ' '] := rfl
  have h4 : ("][" : String).data = [']', '['] := rfl
  simp [sprintf, h1, sprintfAux, renderV, strData_append, h2, h3, h4,
    String.singleton, String.push]

/-! ### Claim theorems -/

/-- C1: the correlation-tag resolution used by every level's entry points
follows the three-way rule on the context: nil prepends `[<pid>] ` (format
variant: `[%v] ` with the pid prepended to the arguments); a `cidContext`
prepends `[<pid>][<cid>] ` (format variant: `[%v][%v] ` with pid then cid
prepended); any other context passes through unmodified. -/
theorem c1_three_way_rule (pid c : Int) (f : String) (a : List GoVal) :
    format pid Context.nil a = GoVal.strV ("[" ++ toString pid ++ "] ") :: a
  ∧ format pid (Context.cid c) a
      = GoVal.strV ("[" ++ toString pid ++ "][" ++ toString c ++ "] ") :: a
  ∧ format pid Context.other a = a
  ∧ formatf pid Context.nil f a = ("[%v] " ++ f, GoVal.intV pid :: a)
  ∧ formatf pid (Context.cid c) f a
      = ("[%v][%v] " ++ f, GoVal.intV pid :: GoVal.intV c :: a)
  ∧ formatf pid Context.other f a = (f, a) := by
  refine ⟨?_, ?_, rfl, rfl, rfl, rfl⟩
  · simp [format, sprintf_pidTag]
  · simp [format, sprintf_pidCidTag]

/-- C2 (counterexample): at the concrete scenario — context nil, pid 1234,
level Trace, message "hello", clock 2009/01/23 01:23:23.123123 — the emitted
line does NOT match the claimed shape
`^\d{4}/\d{2}/\d{2} \d{2}:\d{2}:\d{2}\.\d{6} \[trace\] \[1234\] hello$`:
the severity label precedes the timestamp (the `log.Logger` prefix is
written before the header when `Lmsgprefix` is absent), and `Sprintln` puts
a second space between the tag and the message. -/
theorem c2_counterexample :
    matchesC2Claim (printlnLine 1234 ⟨2009, 1, 23, 1, 23, 23, 123123⟩
      Level.trace Context.nil [GoVal.strV "hello"]) = false := by decide

/-- C2 (amended): for every valid clock reading, that scenario's line
matches `^\[trace\] \d{4}/\d{2}/\d{2} \d{2}:\d{2}:\d{2}\.\d{6} \[1234\]  hello$`
(severity label first, then the microsecond timestamp, then the pid tag,
then two spaces and the message), with a trailing newline. -/
theorem c2_line_shape (t : Timestamp) (hv : t.valid) :
    matchesC2Amended
      (printlnLine 1234 t Level.trace Context.nil [GoVal.strV "hello"]) = true := by
  have hbody : ensureNl (sprintln (format 1234 Context.nil [GoVal.strV "hello"]))
      = "[1234]  hello\n" := by decide
  have hline : printlnLine 1234 t Level.trace Context.nil [GoVal.strV "hello"]
      = ("[trace] " ++ (headerChars t).asString) ++ "[1234]  hello\n" := by
    rw [printlnLine, outputLine, hbody]
    rfl
  rw [hline]
  simp only [matchesC2Amended, strToList_append, toList_asString, List.append_assoc,
    List.cons_append]
  rw [chk_lit_append, chk_header t hv]
  decide

theorem c2_line_shape_witness :
    Timestamp.valid ⟨2009, 1, 23, 1, 23, 23, 123123⟩
  ∧ matchesC2Amended (printlnLine 1234 ⟨2009, 1, 23, 1, 23, 23, 123123⟩
      Level.trace Context.nil [GoVal.strV "hello"]) = true :=
  ⟨by decide, c2_line_shape ⟨2009, 1, 23, 1, 23, 23, 123123⟩ (by decide)⟩

/-- C7 (counterexample): a context that is present but lacks the correlation
capability does NOT get the `[<pid>] ` tag — `format` passes the arguments
through unmodified, so the claim fails for such contexts. -/
theorem c7_counterexample :
    ¬ format 1234 Context.other [GoVal.strV "hello"]
        = [GoVal.strV "[1234] ", GoVal.strV "hello"] := by decide

/-- C7 (amended): the absent (nil) context yields exactly `[<pid>] ` — one
prepended tag, no correlation id, nothing else — while a context present but
lacking the capability yields no tag at all (the arguments pass through
unmodified). -/
theorem c7_amended_pid_tag (pid : Int) (a : List GoVal) :
    format pid Context.nil a = GoVal.strV ("[" ++ toString pid ++ "] ") :: a
  ∧ format pid Context.other a = a :=
  ⟨by simp [format, sprintf_pidTag], rfl⟩

/-! ### State-machine helpers -/

def isCloseEv : Event → Bool
  | Event.closedSink _ => true
  | _ => false

def countClosed (evts : List Event) : Nat := (evts.filter isCloseEv).length

theorem countClosed_append (a b : List Event) :
    countClosed (a ++ b) = countClosed a + countClosed b := by
  simp [countClosed, List.filter_append]

theorem wrote_dest_println (st : LoggerState) (lv : Level) (line : String)
    (d : SinkRef) (l : String) (h : Event.wrote d l ∈ doPrintlnEv st lv line) :
    d = destOf st lv := by
  unfold doPrintlnEv at h
  split_ifs at h <;> simp_all

theorem wrote_dest_printf (st : LoggerState) (lv : Level) (line : String)
    (d : SinkRef) (l : String) (h : Event.wrote d l ∈ doPrintfEv st lv line) :
    d = destOf st lv := by
  unfold doPrintfEv at h
  split_ifs at h <;> simp_all

theorem no_close_in_println (st : LoggerState) (lv : Level) (line : String) (i : Nat) :
    Event.closedSink i ∉ doPrintlnEv st lv line := by
  unfold doPrintlnEv
  split_ifs <;> simp

theorem no_close_in_printf (st : LoggerState) (lv : Level) (line : String) (i : Nat) :
    Event.closedSink i ∉ doPrintfEv st lv line := by
  unfold doPrintfEv
  split_ifs <;> simp

theorem doClose_state (st : LoggerState) :
    (doClose st).1 =
      ⟨SinkRef.discard, SinkRef.discard, SinkRef.discard, SinkRef.discard, none⟩ := by
  rcases hst : st.previousIo with _ | w <;> simp [doClose, hst]

/-- C3: `Switch` rebinds Trace, Warn and Error to the supplied sink while
Info is re-pointed to the discard sink; after `Switch(sinkA)` then
`Switch(sinkB)`, Trace/Warn/Error writes reach only `sinkB` (never `sinkA`,
and Info's line goes to discard), and `Switch` emits no release of any
sink. -/
theorem c3_switch_rebinding (pid : Int) (t : Timestamp) (st : LoggerState)
    (wA wB : Writer) (line : String) (lv : Level) (hne : wA.id ≠ wB.id) :
    (step pid t st (Op.switchW wA)).2.1 = []
  ∧ (step pid t (doSwitch st wA) (Op.switchW wB)).2.1 = []
  ∧ (doSwitch st wA).infoDest = SinkRef.discard
  ∧ (doSwitch st wA).traceDest = SinkRef.custom wA.id
  ∧ (doSwitch st wA).warnDest = SinkRef.custom wA.id
  ∧ (doSwitch st wA).errorDest = SinkRef.custom wA.id
  ∧ destOf (doSwitch (doSwitch st wA) wB) Level.info = SinkRef.discard
  ∧ destOf (doSwitch (doSwitch st wA) wB) Level.trace = SinkRef.custom wB.id
  ∧ destOf (doSwitch (doSwitch st wA) wB) Level.warn = SinkRef.custom wB.id
  ∧ destOf (doSwitch (doSwitch st wA) wB) Level.error = SinkRef.custom wB.id
  ∧ (∀ d l, Event.wrote d l ∈ doPrintlnEv (doSwitch (doSwitch st wA) wB) lv line →
      d ≠ SinkRef.custom wA.id)
  ∧ (lv ≠ Level.info →
      ∀ d l, Event.wrote d l ∈ doPrintlnEv (doSwitch (doSwitch st wA) wB) lv line →
        d = SinkRef.custom wB.id) := by
  refine ⟨rfl, rfl, rfl, rfl, rfl, rfl, rfl, rfl, rfl, rfl, ?_, ?_⟩
  · intro d l h
    rw [wrote_dest_println _ _ _ _ _ h]
    cases lv <;> simp [destOf, doSwitch] <;> omega
  · intro hlv d l h
    rw [wrote_dest_println _ _ _ _ _ h]
    cases lv <;> simp_all [destOf, doSwitch]

theorem c3_switch_rebinding_witness :
    ((⟨1, false, none⟩ : Writer).id ≠ (⟨2, true, none⟩ : Writer).id)
  ∧ destOf (doSwitch (doSwitch initState ⟨1, false, none⟩) ⟨2, true, none⟩)
      Level.trace = SinkRef.custom 2 :=
  ⟨by decide,
    (c3_switch_rebinding 1 ⟨2009, 1, 2, 3, 4, 5, 6⟩ initState ⟨1, false, none⟩
      ⟨2, true, none⟩ "x" Level.trace (by decide)).2.2.2.2.2.2.2.2.1⟩

/-- C8: the emit operations and `Switch` never surface an error for any
input; the only error this subsystem surfaces is the tracked sink's release
failure returned by `Close` (and success when no sink is tracked, since
`none.bind _ = none`). -/
theorem c8_no_failures (pid : Int) (t : Timestamp) (st : LoggerState) (lv : Level)
    (ctx : Context) (a : List GoVal) (f : String) (w : Writer) :
    (step pid t st (Op.println lv ctx a)).2.2 = none
  ∧ (step pid t st (Op.printf lv ctx f a)).2.2 = none
  ∧ (step pid t st (Op.switchW w)).2.2 = none
  ∧ (step pid t st Op.close).2.2 = st.previousIo.bind (fun w' => w'.closeErr) := by
  refine ⟨rfl, rfl, rfl, ?_⟩
  rcases hst : st.previousIo with _ | w' <;> simp [step, doClose, hst]

/-- C9: `Close` releases only the sink installed by the most recent `Switch`
that exposed the release capability: a non-`Closer` switch leaves the
tracked slot untouched; after `Switch(w1)` (not closable) then `Switch(w2)`
(closable) then `Close`, exactly `w2` is released and its error returned. -/
theorem c9_release_most_recent (pid : Int) (t : Timestamp) (st : LoggerState)
    (w1 w2 : Writer) (h1 : w1.closable = false) (h2 : w2.closable = true) :
    (doSwitch st w1).previousIo = st.previousIo
  ∧ (doSwitch (doSwitch st w1) w2).previousIo = some w2
  ∧ (run pid t initState [Op.switchW w1, Op.switchW w2, Op.close]).2
      = [Event.closedSink w2.id]
  ∧ (step pid t (doSwitch (doSwitch initState w1) w2) Op.close).2.2 = w2.closeErr := by
  refine ⟨by simp [doSwitch, h1], by simp [doSwitch, h2], ?_, ?_⟩
  · simp [run, step, doSwitch, doClose, h2]
  · simp [step, doClose, doSwitch, h2]

theorem c9_release_most_recent_witness :
    ((⟨3, false, none⟩ : Writer).closable = false)
  ∧ ((⟨4, true, some "boom"⟩ : Writer).closable = true)
  ∧ (run 1 ⟨2009, 1, 2, 3, 4, 5, 6⟩ initState
      [Op.switchW ⟨3, false, none⟩, Op.switchW ⟨4, true, some "boom"⟩, Op.close]).2
      = [Event.closedSink 4] :=
  ⟨rfl, rfl,
    (c9_release_most_recent 1 ⟨2009, 1, 2, 3, 4, 5, 6⟩ initState ⟨3, false, none⟩
      ⟨4, true, some "boom"⟩ rfl rfl).2.2.1⟩

/-- C10: after `Close` (which resets `previousIo` to nil) and before any
subsequent `Switch`, a Warn or Error write again emits the color start/reset
escapes to stdout even though the line itself goes to the discard sink; in
general the color annotation condition depends only on whether `previousIo`
is nil (and the level), not on the channels' destinations. -/
theorem c10_color_after_close (st : LoggerState) (line : String) :
    doPrintlnEv (doClose st).1 Level.warn line
      = [Event.stdoutWrite colorYellow, Event.wrote SinkRef.discard line,
          Event.stdoutWrite colorBlack]
  ∧ doPrintlnEv (doClose st).1 Level.error line
      = [Event.stdoutWrite colorRed, Event.wrote SinkRef.discard line,
          Event.stdoutWrite colorBlack]
  ∧ (∀ (st2 : LoggerState) (lv : Level),
      (∃ s, Event.stdoutWrite s ∈ doPrintlnEv st2 lv line) ↔
        (st2.previousIo = none ∧ (lv = Level.warn ∨ lv = Level.error))) := by
  refine ⟨by rw [doClose_state]; rfl, by rw [doClose_state]; rfl, ?_⟩
  intro st2 lv
  rcases hp : st2.previousIo with _ | w <;> cases lv <;>
    simp [doPrintlnEv, hp, destOf]

theorem run_replicate_close_none (pid : Int) (t : Timestamp) (n : Nat) :
    ∀ st : LoggerState, st.previousIo = none →
      countClosed (run pid t st (List.replicate n Op.close)).2 = 0 := by
  induction n with
  | zero => intro st _; simp [run, countClosed]
  | succ k ih =>
    intro st h
    rw [List.replicate_succ]
    simp only [run, step, countClosed_append]
    rw [ih (doClose st).1 (by rw [doClose_state])]
    simp [doClose, h, countClosed]

/-- C4: `Close` rebinds all four channels to discard sinks; if a tracked
previous sink exists its release is invoked exactly once, the slot cleared
and its error returned; with no tracked sink `Close` is a no-op returning no
error (so a second `Close` always is); and across any number of `Close`
calls at most one release happens. -/
theorem c4_close_idempotent (pid : Int) (t : Timestamp) (st : LoggerState) :
    (doClose st).1.infoDest = SinkRef.discard
  ∧ (doClose st).1.traceDest = SinkRef.discard
  ∧ (doClose st).1.warnDest = SinkRef.discard
  ∧ (doClose st).1.errorDest = SinkRef.discard
  ∧ (doClose st).1.previousIo = none
  ∧ (∀ w, st.previousIo = some w →
      (doClose st).2.1 = [Event.closedSink w.id] ∧ (doClose st).2.2 = w.closeErr)
  ∧ (st.previousIo = none → (doClose st).2.1 = [] ∧ (doClose st).2.2 = none)
  ∧ (doClose (doClose st).1).2.1 = []
  ∧ (doClose (doClose st).1).2.2 = none
  ∧ (∀ n, countClosed (run pid t st (List.replicate n Op.close)).2 ≤ 1) := by
  refine ⟨by rw [doClose_state], by rw [doClose_state], by rw [doClose_state],
    by rw [doClose_state], by rw [doClose_state], ?_, ?_,
    by rw [doClose_state]; rfl, by rw [doClose_state]; rfl, ?_⟩
  · intro w hw
    simp [doClose, hw]
  · intro hw
    simp [doClose, hw]
  · intro n
    cases n with
    | zero => simp [run, countClosed]
    | succ k =>
      rw [List.replicate_succ]
      simp only [run, step, countClosed_append]
      rw [run_replicate_close_none pid t k (doClose st).1 (by rw [doClose_state])]
      rcases hst : st.previousIo with _ | w <;> simp [doClose, hst, countClosed, isCloseEv]

theorem c4_close_idempotent_witness :
    ((⟨SinkRef.stdout, SinkRef.stdout, SinkRef.stdout, SinkRef.stdout,
        some ⟨7, true, some "boom"⟩⟩ : LoggerState).previousIo
      = some ⟨7, true, some "boom"⟩)
  ∧ (doClose ⟨SinkRef.stdout, SinkRef.stdout, SinkRef.stdout, SinkRef.stdout,
        some ⟨7, true, some "boom"⟩⟩).2.1 = [Event.closedSink 7]
  ∧ (doClose ⟨SinkRef.stdout, SinkRef.stdout, SinkRef.stdout, SinkRef.stdout,
        some ⟨7, true, some "boom"⟩⟩).2.2 = some "boom" := by
  refine ⟨rfl, ?_, ?_⟩
  · exact ((c4_close_idempotent 1 ⟨2009, 1, 2, 3, 4, 5, 6⟩
      ⟨SinkRef.stdout, SinkRef.stdout, SinkRef.stdout, SinkRef.stdout,
        some ⟨7, true, some "boom"⟩⟩).2.2.2.2.2.1 ⟨7, true, some "boom"⟩ rfl).1
  · exact ((c4_close_idempotent 1 ⟨2009, 1, 2, 3, 4, 5, 6⟩
      ⟨SinkRef.stdout, SinkRef.stdout, SinkRef.stdout, SinkRef.stdout,
        some ⟨7, true, some "boom"⟩⟩).2.2.2.2.2.1 ⟨7, true, some "boom"⟩ rfl).2

theorem no_switch_keeps_none (pid : Int) (t : Timestamp) :
    ∀ (ops : List Op) (st : LoggerState), st.previousIo = none →
      (∀ w, Op.switchW w ∉ ops) → (run pid t st ops).1.previousIo = none := by
  intro ops
  induction ops with
  | nil => intro st h _; simpa [run] using h
  | cons op rest ih =>
    intro st h hno
    have hrest : ∀ w, Op.switchW w ∉ rest := fun w hw => hno w (List.mem_cons_of_mem _ hw)
    cases op with
    | println lv ctx a => exact ih st h hrest
    | printf lv ctx f a => exact ih st h hrest
    | switchW w => exact absurd (List.mem_cons_self _ _) (hno w)
    | close =>
      have : (run pid t st (Op.close :: rest)).1 = (run pid t (doClose st).1 rest).1 := rfl
      rw [this]
      exact ih (doClose st).1 (by rw [doClose_state]) hrest

/-- C5 (counterexample): after `Switch` with a sink that does NOT implement
`io.Closer`, `previousIo` is still nil, so a subsequent Error-level write
STILL emits the red color escape — contradicting "after any switchTo call,
color annotation is disabled". -/
theorem c5_counterexample :
    Event.stdoutWrite colorRed
      ∈ doPrintlnEv (doSwitch initState ⟨1, false, none⟩) Level.error "x" := by decide

/-- C5 (amended): while no sink is tracked (`previousIo` nil — in particular
while no custom sink has ever been installed) every Error-level write is
bracketed by the red start and reset escapes and every Warn-level write by
yellow/reset; after a `Switch` whose sink exposes the release capability,
subsequent Warn/Error writes (println or printf) contain no color escapes
for the lifetime of that installation.  (A `Switch` with a non-releasable
sink leaves the color condition — `previousIo` nil — as it was.) -/
theorem c5_color_suppression (pid : Int) (t : Timestamp) (st : LoggerState)
    (w : Writer) (line : String) (lv : Level) (ops : List Op)
    (hc : w.closable = true) :
    (st.previousIo = none →
        doPrintlnEv st Level.error line
          = [Event.stdoutWrite colorRed, Event.wrote st.errorDest line,
              Event.stdoutWrite colorBlack]
      ∧ doPrintlnEv st Level.warn line
          = [Event.stdoutWrite colorYellow, Event.wrote st.warnDest line,
              Event.stdoutWrite colorBlack])
  ∧ ((∀ w', Op.switchW w' ∉ ops) → (run pid t initState ops).1.previousIo = none)
  ∧ (∀ s, Event.stdoutWrite s ∉ doPrintlnEv (doSwitch st w) lv line)
  ∧ (∀ s, Event.stdoutWrite s ∉ doPrintfEv (doSwitch st w) lv line) := by
  refine ⟨?_, ?_, ?_, ?_⟩
  · intro h
    constructor <;> simp [doPrintlnEv, h, destOf]
  · intro hno
    exact no_switch_keeps_none pid t ops initState rfl hno
  · intro s
    simp [doPrintlnEv, doSwitch, hc]
  · intro s
    simp [doPrintfEv, doSwitch, hc]

theorem c5_color_suppression_witness :
    ((⟨2, true, none⟩ : Writer).closable = true)
  ∧ Event.stdoutWrite colorRed
      ∉ doPrintlnEv (doSwitch initState ⟨2, true, none⟩) Level.error "x" :=
  ⟨rfl, (c5_color_suppression 1 ⟨2009, 1, 2, 3, 4, 5, 6⟩ initState ⟨2, true, none⟩
    "x" Level.error [] rfl).2.2.1 colorRed⟩

theorem closed_provenance (pid : Int) (t : Timestamp) :
    ∀ (ops : List Op) (st : LoggerState) (i : Nat),
      Event.closedSink i ∈ (run pid t st ops).2 →
      (∃ w, st.previousIo = some w ∧ w.id = i) ∨
        (∃ w, Op.switchW w ∈ ops ∧ w.closable = true ∧ w.id = i) := by
  intro ops
  induction ops with
  | nil => intro st i h; simp [run] at h
  | cons op rest ih =>
    intro st i h
    simp only [run, List.mem_append] at h
    rcases h with h | h
    · cases op with
      | println lv ctx a => exact absurd h (no_close_in_println _ _ _ _)
      | printf lv ctx f a => exact absurd h (no_close_in_printf _ _ _ _)
      | switchW w => simp [step] at h
      | close =>
        rcases hst : st.previousIo with _ | w
        · simp [step, doClose, hst] at h
        · simp [step, doClose, hst] at h
          exact Or.inl ⟨w, rfl, h.symm⟩
    · have hr := ih (step pid t st op).1 i h
      cases op with
      | println lv ctx a =>
        rcases hr with hl | ⟨w', hm, hc', hi⟩
        · exact Or.inl hl
        · exact Or.inr ⟨w', List.mem_cons_of_mem _ hm, hc', hi⟩
      | printf lv ctx f a =>
        rcases hr with hl | ⟨w', hm, hc', hi⟩
        · exact Or.inl hl
        · exact Or.inr ⟨w', List.mem_cons_of_mem _ hm, hc', hi⟩
      | switchW w =>
        rcases hr with ⟨w', hw', hi⟩ | ⟨w', hm, hc', hi⟩
        · by_cases hcl : w.closable
          · have : (step pid t st (Op.switchW w)).1.previousIo = some w := by
              simp [step, doSwitch, hcl]
            rw [this] at hw'
            cases hw'
            exact Or.inr ⟨w, List.mem_cons_self _ _, by simp [hcl], hi⟩
          · have : (step pid t st (Op.switchW w)).1.previousIo = st.previousIo := by
              simp [step, doSwitch, hcl]
            rw [this] at hw'
            exact Or.inl ⟨w', hw', hi⟩
        · exact Or.inr ⟨w', List.mem_cons_of_mem _ hm, hc', hi⟩
      | close =>
        rcases hr with ⟨w', hw', _⟩ | ⟨w', hm, hc', hi⟩
        · rw [show (step pid t st Op.close).1 = (doClose st).1 from rfl,
            doClose_state] at hw'
          cases hw'
        · exact Or.inr ⟨w', List.mem_cons_of_mem _ hm, hc', hi⟩

/-- C6: every sink release ever performed by a run from the initial state is
of a closable writer that some `Switch` in the run installed (the controller
never closes a sink it did not itself track); a `Switch` itself releases
nothing; installing a closable sink replaces the tracked one, and a
non-closable `Switch` leaves it; the tracked slot holds at most one writer. -/
theorem c6_tracked_sink_invariant (pid : Int) (t : Timestamp) (ops : List Op) (i : Nat) :
    (Event.closedSink i ∈ (run pid t initState ops).2 →
      ∃ w, Op.switchW w ∈ ops ∧ w.closable = true ∧ w.id = i)
  ∧ (∀ (st : LoggerState) (w : Writer), (step pid t st (Op.switchW w)).2.1 = [])
  ∧ (∀ (st : LoggerState) (w : Writer), w.closable = true →
      (doSwitch st w).previousIo = some w)
  ∧ (∀ (st : LoggerState) (w : Writer), w.closable = false →
      (doSwitch st w).previousIo = st.previousIo)
  ∧ (∀ st : LoggerState, st.previousIo = none ∨ ∃! w, st.previousIo = some w) := by
  refine ⟨?_, fun _ _ => rfl, ?_, ?_, ?_⟩
  · intro h
    rcases closed_provenance pid t ops initState i h with ⟨w, hw, _⟩ | hr
    · simp [initState] at hw
    · exact hr
  · intro st w hc
    simp [doSwitch, hc]
  · intro st w hc
    simp [doSwitch, hc]
  · intro st
    rcases hst : st.previousIo with _ | w
    · exact Or.inl rfl
    · exact Or.inr ⟨w, rfl, fun y hy => (Option.some.inj hy).symm⟩

theorem c6_tracked_sink_invariant_witness :
    Event.closedSink 4
      ∈ (run 1 ⟨2009, 1, 2, 3, 4, 5, 6⟩ initState
          [Op.switchW ⟨4, true, none⟩, Op.close]).2
  ∧ ∃ w, Op.switchW w ∈ [Op.switchW (⟨4, true, none⟩ : Writer), Op.close]
      ∧ w.closable = true ∧ w.id = 4 :=
  ⟨by decide,
    (c6_tracked_sink_invariant 1 ⟨2009, 1, 2, 3, 4, 5, 6⟩
      [Op.switchW ⟨4, true, none⟩, Op.close] 4).1 (by decide)⟩

theorem c1_three_way_rule_witness :
    format 3 Context.nil [] = [GoVal.strV "[3] "]
  ∧ formatf 3 Context.other "f" [] = ("f", []) := by
  have h := c1_three_way_rule 3 0 "f" []
  refine ⟨?_, h.2.2.2.2.2⟩
  rw [h.1]
  decide

theorem c8_no_failures_witness :
    (step 1 ⟨2009, 1, 2, 3, 4, 5, 6⟩ initState Op.close).2.2 = none := by
  have h := c8_no_failures 1 ⟨2009, 1, 2, 3, 4, 5, 6⟩ initState Level.info
    Context.nil [] "" ⟨0, false, none⟩
  rw [h.2.2.2]
  rfl

theorem c10_color_after_close_witness :
    doPrintlnEv (doClose initState).1 Level.warn "m"
      = [Event.stdoutWrite colorYellow, Event.wrote SinkRef.discard "m",
          Event.stdoutWrite colorBlack] :=
  (c10_color_after_close initState "m").1

end LoggerGo
